import Mathlib

/-!
Verification development for the khotba-transcriber frontend.

The development shallowly embeds two parts of the code base:

* the editable-result store of the results panel component
  (file src/unnamed/part_000): lane drafts, edit sessions with a cancel
  snapshot, save with cascaded retranslation, per-lane save status,
  and the cost fields it maintains;
* the pipeline controller of App.jsx (handleTranscribeAndTranslate):
  the four-step processing ledger, its status updates, the error
  message shown on failure, and the cost formatter fmtCost.

JavaScript numbers are modelled as rationals, strings as Lean strings,
and nullable values as Option.  JS truthiness tests that occur in the
code (x || fallback on strings and numbers, if (data.french_text)) are
modelled explicitly.
-/

namespace Khotba

/-- JS truthiness of a nullable string: null/undefined and the empty
string are falsy. Models conditions such as data.french_text being
used as a guard. -/
def jsTruthyStr : Option String → Bool
  | none => false
  | some s => !(s == "")

/-- Models the JS expression d || fallback on a nullable string:
returns the fallback when d is null/undefined or empty. -/
def jsOrStr (d : Option String) (fallback : String) : String :=
  match d with
  | none => fallback
  | some s => if s == "" then fallback else s

/-- Models the JS expression x || 0 on a nullable number: null,
undefined and 0 are falsy and give 0. -/
def jsOrZero (x : Option ℚ) : ℚ :=
  match x with
  | none => 0
  | some v => if v = 0 then 0 else v

/- ## Editable-result store (src/unnamed/part_000) -/

/-- One transcript segment: a start offset and its text, as produced by
the transcription service and rendered by the results panel. -/
structure Segment where
  start : ℚ
  text : String
  deriving Repr, DecidableEq

/-- The two text lanes of the panel: the Arabic source lane and the
French target lane. -/
inductive Lane where
  | arabic
  | french
  deriving Repr, DecidableEq

/-- Per-lane save status, the saveStatus state of the panel:
one of the strings idle, saving, saved, error. -/
inductive SaveStatus where
  | idle
  | saving
  | saved
  | error
  deriving Repr, DecidableEq

/-- The saveStatus object of the panel, one status per lane,
initialised to idle for both. -/
structure SaveStatusMap where
  arabic : SaveStatus
  french : SaveStatus
  deriving Repr, DecidableEq

/-- Reading saveStatus at a computed key, saveStatus of lang. -/
def SaveStatusMap.get (m : SaveStatusMap) : Lane → SaveStatus
  | Lane.arabic => m.arabic
  | Lane.french => m.french

/-- Models the update s with the computed key lang replaced, the
pattern setSaveStatus of a function spreading s and overriding lang. -/
def SaveStatusMap.set (m : SaveStatusMap) (lang : Lane) (v : SaveStatus) : SaveStatusMap :=
  match lang with
  | Lane.arabic => { m with arabic := v }
  | Lane.french => { m with french := v }

/-- The cancelSnapshot captured by enterEdit: copies of the four
textual fields of both lanes. -/
structure Snapshot where
  arabicSegs : List Segment
  frenchSegs : List Segment
  arabicText : String
  frenchText : String
  deriving Repr, DecidableEq

/-- The component state of the results panel that the edit subsystem
reads and writes: the four textual fields, the active edit lane
(editMode), the cancel snapshot, and the per-lane save status. -/
structure PanelState where
  arabicSegs : List Segment
  frenchSegs : List Segment
  arabicText : String
  frenchText : String
  editMode : Option Lane
  cancelSnapshot : Option Snapshot
  saveStatus : SaveStatusMap
  deriving Repr, DecidableEq

/-- enterEdit(lang): captures the snapshot of both lanes, sets
editMode to the lane, and resets that lane save status to idle.
Mirrors lines 203-207 of src/unnamed/part_000. -/
def enterEdit (lang : Lane) (s : PanelState) : PanelState :=
  { s with
    cancelSnapshot := some ⟨s.arabicSegs, s.frenchSegs, s.arabicText, s.frenchText⟩
    editMode := some lang
    saveStatus := s.saveStatus.set lang SaveStatus.idle }

/-- cancelEdit(): when a snapshot exists, restores the four textual
fields from it; always clears editMode. Mirrors lines 209-217 of
src/unnamed/part_000. The save statuses are not touched. -/
def cancelEdit (s : PanelState) : PanelState :=
  match s.cancelSnapshot with
  | some snap =>
      { s with
        arabicSegs := snap.arabicSegs
        frenchSegs := snap.frenchSegs
        arabicText := snap.arabicText
        frenchText := snap.frenchText
        editMode := none }
  | none => { s with editMode := none }

/-- The outcome of the PATCH request issued by saveEdits: failure
covers a network error, a non-ok response, and an unparsable body
(all reach the catch block); success carries the parsed response
fields french_segments and french_text, each possibly absent. -/
inductive SaveResponse where
  | failure
  | success (french_segments : Option (List Segment)) (french_text : Option String)
  deriving Repr, DecidableEq

/-- saveEdits(lang) as a state transformer over the response outcome.
Mirrors lines 219-248 of src/unnamed/part_000: status is set to
saving; on failure the catch sets it to error and nothing else
changes; on success, when the saved lane is arabic, the truthy
response fields overwrite the french draft (if data.french_segments,
if data.french_text - an empty string is falsy and is skipped), then
status becomes saved and editMode is cleared. -/
def saveEdits (lang : Lane) (resp : SaveResponse) (s : PanelState) : PanelState :=
  let s1 := { s with saveStatus := s.saveStatus.set lang SaveStatus.saving }
  match resp with
  | SaveResponse.failure =>
      { s1 with saveStatus := s1.saveStatus.set lang SaveStatus.error }
  | SaveResponse.success fsegs ftext =>
      let s2 :=
        if lang = Lane.arabic then
          let sA := match fsegs with
            | some segs => { s1 with frenchSegs := segs }
            | none => s1
          match ftext with
          | some t => if t == "" then sA else { sA with frenchText := t }
          | none => sA
        else s1
      { s2 with
        saveStatus := s2.saveStatus.set lang SaveStatus.saved
        editMode := none }

/-- The deferred callback of the setTimeout in saveEdits: three
seconds after a successful save it resets the saved lane status to
idle. -/
def saveStatusTimeout (lang : Lane) (s : PanelState) : PanelState :=
  { s with saveStatus := s.saveStatus.set lang SaveStatus.idle }

/-- The draft mutations available while editing: the per-segment
textarea onChange handlers (map replacing the text of segment i) and
the full-text textarea handlers (setArabicText, setFrenchText).
Mirrors lines 424-498 of src/unnamed/part_000. -/
inductive DraftOp where
  | arabicSeg (i : ℕ) (t : String)
  | frenchSeg (i : ℕ) (t : String)
  | arabicFull (t : String)
  | frenchFull (t : String)
  deriving Repr, DecidableEq

/-- Replace the text of the segment at position i, leaving the other
segments and the start offsets unchanged: models
segs.map of (s, j) to (j === i ? spread s with text v : s). -/
def updateSegAt (i : ℕ) (t : String) (segs : List Segment) : List Segment :=
  segs.mapIdx (fun j seg => if j = i then { seg with text := t } else seg)

/-- Apply one draft mutation to the panel state. -/
def applyDraftOp : DraftOp → PanelState → PanelState
  | DraftOp.arabicSeg i t, s => { s with arabicSegs := updateSegAt i t s.arabicSegs }
  | DraftOp.frenchSeg i t, s => { s with frenchSegs := updateSegAt i t s.frenchSegs }
  | DraftOp.arabicFull t, s => { s with arabicText := t }
  | DraftOp.frenchFull t, s => { s with frenchText := t }

/-- Apply a sequence of draft mutations in order. -/
def applyDraftOps (ops : List DraftOp) (s : PanelState) : PanelState :=
  ops.foldl (fun st op => applyDraftOp op st) s

/-- The user-level enter-edit operation: the EditControls component of
src/unnamed/part_000 (lines 294-351) renders the Modifier button, the
only caller of enterEdit, only when the lane is not already editing
and results.analysisId is truthy and no other lane is editing
(otherEditing). Clicking is therefore guarded exactly by this
condition; outside it the state is unchanged. -/
def enterEditClick (analysisId : Option String) (lang : Lane) (s : PanelState) : PanelState :=
  let isEditing := s.editMode = some lang
  let otherEditing := s.editMode ≠ none ∧ s.editMode ≠ some lang
  if isEditing then s
  else if jsTruthyStr analysisId ∧ ¬otherEditing then enterEdit lang s
  else s

/-- The network requests a store operation issues, identified by the
lane whose draft is PATCHed: only saveEdits performs a fetch; enter,
cancel, draft edits and the status timeout issue none. -/
inductive EditOp where
  | enterClick (analysisId : Option String) (lang : Lane)
  | cancel
  | save (lang : Lane) (resp : SaveResponse)
  | timeout (lang : Lane)
  | draft (op : DraftOp)

/-- Apply any store operation. -/
def applyEditOp : EditOp → PanelState → PanelState
  | EditOp.enterClick aid lang, s => enterEditClick aid lang s
  | EditOp.cancel, s => cancelEdit s
  | EditOp.save lang resp, s => saveEdits lang resp s
  | EditOp.timeout lang, s => saveStatusTimeout lang s
  | EditOp.draft op, s => applyDraftOp op s

/-- The lanes PATCHed by an operation: saveEdits fetches once for its
lane; every other operation body contains no fetch call. -/
def requestsOf : EditOp → List Lane
  | EditOp.save lang _ => [lang]
  | _ => []

/- ## Pipeline controller (App.jsx, handleTranscribeAndTranslate) -/

/-- One entry of the processingSteps state: id and label from
PIPELINE_STEPS, plus the status string, the measured duration in
milliseconds and the cost, both nullable. The code assigns only the
status strings pending, active and done. -/
structure PipeStep where
  id : String
  label : String
  status : String
  duration : Option ℚ
  cost : Option ℚ
  deriving Repr, DecidableEq

/-- PIPELINE_STEPS of App.jsx: the fixed ordered id/label table of the
four stages. -/
def PIPELINE_STEPS : List (String × String) :=
  [("extract", "Extraction audio"),
   ("whisper", "Transcription Whisper"),
   ("translate", "Traduction en français"),
   ("article", "Génération article")]

/-- The reset at the top of handleTranscribeAndTranslate: every stage
pending with null duration and cost. -/
def resetSteps : List PipeStep :=
  PIPELINE_STEPS.map (fun p => ⟨p.1, p.2, "pending", none, none⟩)

/-- The fields of the parsed /api/transcribe response that the ledger
updates read (the segments and full text are only forwarded to the
translate call and never reach the ledger). -/
structure TranscribeData where
  whisper_cost_usd : Option ℚ
  deriving Repr, DecidableEq

/-- The costs object of the parsed /api/translate response; each field
may be absent. -/
structure CostsRec where
  translation_cost_usd : Option ℚ
  article_cost_usd : Option ℚ
  deriving Repr, DecidableEq

/-- The fields of the parsed /api/translate response that the ledger
updates read. -/
structure TranslateData where
  costs : Option CostsRec
  deriving Repr, DecidableEq

/-- Outcome of one backend call of the pipeline: fail carries the
detail field of the error body (absent when the body had none), ok
carries the parsed data. -/
inductive StageCall (α : Type) where
  | fail (detail : Option String)
  | ok (data : α)

/-- First ledger update: the extract stage becomes active. -/
def updExtractActive (steps : List PipeStep) : List PipeStep :=
  steps.map (fun s => if s.id = "extract" then { s with status := "active" } else s)

/-- Second ledger update, after the transcribe call returned ok:
extract done with its duration, whisper active. -/
def updExtractDone (extractDuration : ℚ) (steps : List PipeStep) : List PipeStep :=
  steps.map (fun s =>
    if s.id = "extract" then { s with status := "done", duration := some extractDuration }
    else if s.id = "whisper" then { s with status := "active" }
    else s)

/-- Third ledger update, after the transcription JSON was parsed:
whisper done with duration and the whisper cost (null coalesced),
translate active. -/
def updWhisperDone (whisperDuration : ℚ) (td : TranscribeData)
    (steps : List PipeStep) : List PipeStep :=
  steps.map (fun s =>
    if s.id = "whisper" then
      { s with status := "done", duration := some whisperDuration, cost := td.whisper_cost_usd }
    else if s.id = "translate" then { s with status := "active" }
    else s)

/-- Fourth ledger update, after the translate call returned ok:
translate done with duration and null cost, article active. -/
def updTranslateDone (translateDuration : ℚ) (steps : List PipeStep) : List PipeStep :=
  steps.map (fun s =>
    if s.id = "translate" then
      { s with status := "done", duration := some translateDuration, cost := none }
    else if s.id = "article" then { s with status := "active" }
    else s)

/-- Fifth ledger update, after the translate JSON was parsed: the
translate cost is filled in from costs.translation_cost_usd (optional
chaining, null coalesced) and article becomes done with its duration
and costs.article_cost_usd. -/
def updArticleDone (articleDuration : ℚ) (tld : TranslateData)
    (steps : List PipeStep) : List PipeStep :=
  steps.map (fun s =>
    if s.id = "translate" then
      { s with cost := (tld.costs.map (fun c => c.translation_cost_usd)).getD none }
    else if s.id = "article" then
      { s with status := "done", duration := some articleDuration,
               cost := (tld.costs.map (fun c => c.article_cost_usd)).getD none }
    else s)

/-- The successive values taken by processingSteps during one run of
handleTranscribeAndTranslate, for the given outcomes of the
transcribe and translate calls: the trace stops at the state in which
the thrown error leaves the ledger. -/
def pipelineTrace (tr : StageCall TranscribeData) (tl : StageCall TranslateData)
    (dExtract dWhisper dTranslate dArticle : ℚ) : List (List PipeStep) :=
  let st0 := resetSteps
  let st1 := updExtractActive st0
  match tr with
  | StageCall.fail _ => [st0, st1]
  | StageCall.ok td =>
    let st2 := updExtractDone dExtract st1
    let st3 := updWhisperDone dWhisper td st2
    match tl with
    | StageCall.fail _ => [st0, st1, st2, st3]
    | StageCall.ok tld =>
      let st4 := updTranslateDone dTranslate st3
      let st5 := updArticleDone dArticle tld st4
      [st0, st1, st2, st3, st4, st5]

/-- The final value of processingSteps after the run. -/
def finalPipelineSteps (tr : StageCall TranscribeData) (tl : StageCall TranslateData)
    (dExtract dWhisper dTranslate dArticle : ℚ) : List PipeStep :=
  (pipelineTrace tr tl dExtract dWhisper dTranslate dArticle).getLast?.getD []

/-- The processingError state after the run: on a non-ok response the
code throws new Error with err.detail || fallback and the catch block
stores err.message; a fully successful run leaves it null. -/
def pipelineError (tr : StageCall TranscribeData) (tl : StageCall TranslateData) :
    Option String :=
  match tr with
  | StageCall.fail d => some (jsOrStr d "Transcription failed")
  | StageCall.ok _ =>
    match tl with
    | StageCall.fail d => some (jsOrStr d "Translation failed")
    | StageCall.ok _ => none

/-- The backend endpoints actually fetched during the run, in order:
the translate call is only reached when the transcribe call did not
throw. -/
def pipelineCalls (tr : StageCall TranscribeData) : List String :=
  match tr with
  | StageCall.fail _ => ["transcribe"]
  | StageCall.ok _ => ["transcribe", "translate"]

/-- The status column of a ledger state. -/
def statusesOf (steps : List PipeStep) : List String :=
  steps.map (fun s => s.status)

/-- At most one entry of the status column is the string active. -/
def atMostOneActive (sts : List String) : Bool :=
  (sts.filter (fun s => s == "active")).length ≤ 1

/-- Scanning the status column left to right, once a stage is met that
is not done, no later stage is active: every active stage is preceded
only by done stages. -/
def noActiveAfterNonDone : List String → Bool
  | [] => true
  | s :: rest =>
      if s == "done" then noActiveAfterNonDone rest
      else rest.all (fun t => !(t == "active"))

/- ## Cost formatting (fmtCost) and cost accumulation -/

/-- The decimal digit characters of a fraction part, most significant
first: exactly n characters for a value below 10 to the n. -/
def fracDigitChars : ℕ → ℕ → List Char
  | 0, _ => []
  | k + 1, m => fracDigitChars k (m / 10) ++ [Nat.digitChar (m % 10)]

/-- The decimal digit characters of a natural number, with the single
character 0 for zero. -/
def natDigitChars (m : ℕ) : List Char :=
  if m = 0 then ['0'] else ((Nat.digits 10 m).reverse).map Nat.digitChar

/-- Model of the JS Number.prototype.toFixed for a nonnegative
rational receiver: round to the nearest multiple of 10 to the minus n
(ties upward) and print with exactly n digits after the decimal
point. -/
def jsToFixedNonneg (n : ℕ) (q : ℚ) : String :=
  let m : ℕ := (⌊q * (10 : ℚ) ^ n + 1 / 2⌋).toNat
  String.mk (natDigitChars (m / 10 ^ n) ++ '.' :: fracDigitChars n (m % 10 ^ n))

/-- Model of toFixed for any rational receiver. -/
def jsToFixed (n : ℕ) (q : ℚ) : String :=
  if q < 0 then String.mk ('-' :: (jsToFixedNonneg n (-q)).data)
  else jsToFixedNonneg n q

/-- fmtCost of the results panel (src/unnamed/part_000, lines
124-128): null or zero give the literal two-decimal zero string,
values below 0.0001 are formatted with toFixed(6), every other value
with toFixed(4). -/
def fmtCost : Option ℚ → String
  | none => "$0.00"
  | some v =>
      if v = 0 then "$0.00"
      else if v < 0.0001 then "$" ++ jsToFixed 6 v
      else "$" ++ jsToFixed 4 v

/-- fmtCost of App.jsx (lines 32-37): null gives null, zero gives the
two-decimal zero string, and the same two toFixed branches
otherwise. -/
def fmtCostApp : Option ℚ → Option String
  | none => none
  | some v =>
      if v = 0 then some "$0.00"
      else if v < 0.0001 then some ("$" ++ jsToFixed 6 v)
      else some ("$" ++ jsToFixed 4 v)

/-- The characters strictly after the first decimal point of a
character list (all characters when there is no point). -/
def charsAfterDot : List Char → List Char
  | [] => []
  | c :: rest => if c = '.' then rest else charsAfterDot rest

/-- How many decimal places a rendered string carries: the number of
characters after its first decimal point. -/
def decimalsAfterDot (s : String) : ℕ :=
  (charsAfterDot s.data).length

/-- The incremental total update of handleGenerateArticle
(src/unnamed/part_000, line 277): the new total_cost_usd is
(prev.total_cost_usd || 0) + (data.costs.article_cost_usd || 0). -/
def updateTotal (prevTotal delta : Option ℚ) : ℚ :=
  jsOrZero prevTotal + jsOrZero delta

/-- Folding the incremental update over a list of per-stage costs,
starting from a zero total. -/
def accumulate (l : List (Option ℚ)) : ℚ :=
  l.foldl (fun acc c => updateTotal (some acc) c) 0

/-- A concrete panel state used by the witnesses: one segment per
lane, matching full texts, no session open. -/
def samplePanel : PanelState :=
  { arabicSegs := [⟨0, "النص"⟩]
    frenchSegs := [⟨0, "avant"⟩]
    arabicText := "النص"
    frenchText := "avant"
    editMode := none
    cancelSnapshot := none
    saveStatus := ⟨SaveStatus.idle, SaveStatus.idle⟩ }

/- ## Helper lemmas -/

theorem SaveStatusMap.get_set_self (m : SaveStatusMap) (lang : Lane) (v : SaveStatus) :
    (m.set lang v).get lang = v := by
  cases lang <;> rfl

theorem SaveStatusMap.get_set_ne (m : SaveStatusMap) (lang l2 : Lane) (v : SaveStatus)
    (h : l2 ≠ lang) : (m.set lang v).get l2 = m.get l2 := by
  cases lang <;> cases l2 <;> first | rfl | exact absurd rfl h

theorem applyDraftOp_cancelSnapshot (op : DraftOp) (s : PanelState) :
    (applyDraftOp op s).cancelSnapshot = s.cancelSnapshot := by
  cases op <;> rfl

theorem applyDraftOps_cancelSnapshot (ops : List DraftOp) :
    ∀ s : PanelState, (applyDraftOps ops s).cancelSnapshot = s.cancelSnapshot := by
  induction ops with
  | nil => intro s; rfl
  | cons op rest ih =>
      intro s
      have h1 : applyDraftOps (op :: rest) s = applyDraftOps rest (applyDraftOp op s) := rfl
      rw [h1, ih, applyDraftOp_cancelSnapshot]

theorem cancelEdit_of_snapshot (s : PanelState) (snap : Snapshot)
    (h : s.cancelSnapshot = some snap) :
    cancelEdit s =
      { s with
        arabicSegs := snap.arabicSegs
        frenchSegs := snap.frenchSegs
        arabicText := snap.arabicText
        frenchText := snap.frenchText
        editMode := none } := by
  unfold cancelEdit
  rw [h]

theorem cancelEdit_saveStatus (s : PanelState) :
    (cancelEdit s).saveStatus = s.saveStatus := by
  unfold cancelEdit
  cases s.cancelSnapshot <;> rfl

/- ## Claims about the edit subsystem -/

/-- C2: for every edit session, entering edit on a lane, applying any
sequence of draft mutations to either representation, and cancelling
leaves both lanes textual fields (segment lists and full texts)
exactly equal to their values at enterEdit time. -/
theorem cancel_restores_pre_edit_state (s : PanelState) (lang : Lane) (ops : List DraftOp) :
    (cancelEdit (applyDraftOps ops (enterEdit lang s))).arabicSegs = s.arabicSegs ∧
    (cancelEdit (applyDraftOps ops (enterEdit lang s))).frenchSegs = s.frenchSegs ∧
    (cancelEdit (applyDraftOps ops (enterEdit lang s))).arabicText = s.arabicText ∧
    (cancelEdit (applyDraftOps ops (enterEdit lang s))).frenchText = s.frenchText := by
  have hsnap : (applyDraftOps ops (enterEdit lang s)).cancelSnapshot =
      some ⟨s.arabicSegs, s.frenchSegs, s.arabicText, s.frenchText⟩ := by
    rw [applyDraftOps_cancelSnapshot]
    rfl
  rw [cancelEdit_of_snapshot _ _ hsnap]
  exact ⟨rfl, rfl, rfl, rfl⟩

/-- C3: attempting to enter edit on a lane while the other lane has an
active session is a no-op (the whole panel state, hence the session
lane, the snapshot and all drafts, is unchanged) and issues no network
request; in particular entering edit on the source lane and then on
the target lane leaves the session lane at the source lane. -/
theorem enterEdit_mutual_exclusion (aid : Option String) (lang l' : Lane) (s : PanelState)
    (h1 : s.editMode = some l') (h2 : l' ≠ lang) :
    enterEditClick aid lang s = s ∧
    requestsOf (EditOp.enterClick aid lang) = [] ∧
    (s.editMode = some Lane.arabic → lang = Lane.french →
      (enterEditClick aid lang s).editMode = some Lane.arabic) := by
  have hne : enterEditClick aid lang s = s := by
    unfold enterEditClick
    rw [h1]
    simp [h2]
  refine ⟨hne, rfl, fun ha _ => ?_⟩
  rw [hne, ha]

/-- C4: a failed save (network error, non-ok response, or unparsable
body) sets the save status of the saved lane to error, leaves the
session open (editMode unchanged), and preserves all four draft
fields and the snapshot exactly. -/
theorem save_failure_keeps_session (s : PanelState) (lang : Lane) :
    (saveEdits lang SaveResponse.failure s).saveStatus.get lang = SaveStatus.error ∧
    (saveEdits lang SaveResponse.failure s).editMode = s.editMode ∧
    (saveEdits lang SaveResponse.failure s).arabicSegs = s.arabicSegs ∧
    (saveEdits lang SaveResponse.failure s).frenchSegs = s.frenchSegs ∧
    (saveEdits lang SaveResponse.failure s).arabicText = s.arabicText ∧
    (saveEdits lang SaveResponse.failure s).frenchText = s.frenchText ∧
    (saveEdits lang SaveResponse.failure s).cancelSnapshot = s.cancelSnapshot := by
  cases lang <;>
    exact ⟨rfl, rfl, rfl, rfl, rfl, rfl, rfl⟩

/-- C10: cancelEdit leaves both per-lane save statuses unchanged, so
an error status set by a failed save persists across a cancel; a
subsequent enterEdit on a lane resets exactly that lane to idle and
leaves the other lane status unchanged; the deferred timeout after a
successful save resets the saved lane to idle. -/
theorem cancel_preserves_save_status (s : PanelState) (lang l2 : Lane) :
    (cancelEdit s).saveStatus = s.saveStatus ∧
    (s.saveStatus.get lang = SaveStatus.error →
      (cancelEdit s).saveStatus.get lang = SaveStatus.error) ∧
    (enterEdit lang s).saveStatus.get lang = SaveStatus.idle ∧
    (l2 ≠ lang → (enterEdit lang s).saveStatus.get l2 = s.saveStatus.get l2) ∧
    (saveStatusTimeout lang s).saveStatus.get lang = SaveStatus.idle := by
  refine ⟨cancelEdit_saveStatus s, ?_, ?_, ?_, ?_⟩
  · intro h
    rw [cancelEdit_saveStatus s]
    exact h
  · exact SaveStatusMap.get_set_self _ _ _
  · intro h
    exact SaveStatusMap.get_set_ne _ _ _ _ h
  · exact SaveStatusMap.get_set_self _ _ _

/-- Witness for C10 at a concrete state carrying an error status. -/
theorem cancel_preserves_save_status_witness :
    (cancelEdit { samplePanel with saveStatus := ⟨SaveStatus.error, SaveStatus.idle⟩
                  }).saveStatus.get Lane.arabic = SaveStatus.error ∧
    (enterEdit Lane.arabic samplePanel).saveStatus.get Lane.french = SaveStatus.idle := by
  refine ⟨?_, ?_⟩
  · exact (cancel_preserves_save_status
      { samplePanel with saveStatus := ⟨SaveStatus.error, SaveStatus.idle⟩ }
      Lane.arabic Lane.french).2.1 rfl
  · exact (cancel_preserves_save_status samplePanel Lane.arabic Lane.french).2.2.2.1
      (by decide)

/-- Witness for C3 at a concrete state whose source lane is already
editing. -/
theorem enterEdit_mutual_exclusion_witness :
    enterEditClick (some "abc123") Lane.french
        { samplePanel with editMode := some Lane.arabic } =
      { samplePanel with editMode := some Lane.arabic } ∧
    (enterEditClick (some "abc123") Lane.french
        { samplePanel with editMode := some Lane.arabic }).editMode = some Lane.arabic := by
  have h := enterEdit_mutual_exclusion (some "abc123") Lane.french Lane.arabic
    { samplePanel with editMode := some Lane.arabic } rfl (by decide)
  exact ⟨h.1, h.2.2 rfl rfl⟩

/-- C1 counterexample: the claim states that whenever a source-lane
save response contains a target-lane payload, the target draft is
overwritten with exactly that payload. The code guards the full-text
cascade with JS truthiness (if data.french_text), so a response whose
cascaded french_text is the empty string is a payload that is not
applied: the target full text stays at its prior value avant instead
of becoming the empty string. -/
theorem cascade_empty_text_counterexample :
    (saveEdits Lane.arabic
        (SaveResponse.success none (some ""))
        { samplePanel with editMode := some Lane.arabic }).frenchText = "avant" ∧
    ("avant" : String) ≠ "" := by
  exact ⟨rfl, by decide⟩

/-- C1 amended: on a source-lane save, each truthy cascaded field of
the response overwrites the corresponding target-lane draft field
exactly, regardless of its prior contents (any segment list, a
non-empty full text); an absent field, and a cascaded empty-string
full text, leave that field unchanged; a target-lane save and a
failed source-lane save never touch the other lane drafts. -/
theorem cascade_merge (s : PanelState) (fsegs : Option (List Segment))
    (ftext : Option String) :
    (∀ segs, fsegs = some segs →
      (saveEdits Lane.arabic (SaveResponse.success fsegs ftext) s).frenchSegs = segs) ∧
    (fsegs = none →
      (saveEdits Lane.arabic (SaveResponse.success fsegs ftext) s).frenchSegs = s.frenchSegs) ∧
    (∀ t, ftext = some t → t ≠ "" →
      (saveEdits Lane.arabic (SaveResponse.success fsegs ftext) s).frenchText = t) ∧
    (ftext = none →
      (saveEdits Lane.arabic (SaveResponse.success fsegs ftext) s).frenchText = s.frenchText) ∧
    (ftext = some "" →
      (saveEdits Lane.arabic (SaveResponse.success fsegs ftext) s).frenchText = s.frenchText) ∧
    (saveEdits Lane.arabic (SaveResponse.success fsegs ftext) s).arabicSegs = s.arabicSegs ∧
    (saveEdits Lane.arabic (SaveResponse.success fsegs ftext) s).arabicText = s.arabicText ∧
    (∀ resp,
      (saveEdits Lane.french resp s).arabicSegs = s.arabicSegs ∧
      (saveEdits Lane.french resp s).arabicText = s.arabicText ∧
      (saveEdits Lane.french resp s).frenchSegs = s.frenchSegs ∧
      (saveEdits Lane.french resp s).frenchText = s.frenchText) ∧
    (saveEdits Lane.arabic SaveResponse.failure s).frenchSegs = s.frenchSegs ∧
    (saveEdits Lane.arabic SaveResponse.failure s).frenchText = s.frenchText := by
  refine ⟨?_, ?_, ?_, ?_, ?_, ?_, ?_, ?_, rfl, rfl⟩
  · intro segs h
    subst h
    cases ftext with
    | none => rfl
    | some t =>
        by_cases ht : t = ""
        · subst ht; rfl
        · simp [saveEdits, ht]
  · intro h
    subst h
    cases ftext with
    | none => rfl
    | some t =>
        by_cases ht : t = ""
        · subst ht; rfl
        · simp [saveEdits, ht]
  · intro t h ht
    subst h
    cases fsegs <;> simp [saveEdits, ht]
  · intro h
    subst h
    cases fsegs <;> rfl
  · intro h
    subst h
    cases fsegs <;> rfl
  · cases fsegs <;> cases ftext with
    | none => rfl
    | some t =>
        by_cases ht : t = ""
        · subst ht; rfl
        · simp [saveEdits, ht]
  · cases fsegs <;> cases ftext with
    | none => rfl
    | some t =>
        by_cases ht : t = ""
        · subst ht; rfl
        · simp [saveEdits, ht]
  · intro resp
    cases resp with
    | failure => exact ⟨rfl, rfl, rfl, rfl⟩
    | success a b => exact ⟨rfl, rfl, rfl, rfl⟩

/-- Witness for C1 amended: a concrete source-lane save whose
response cascades both representations overwrites the target lane
with exactly the cascaded values. -/
theorem cascade_merge_witness :
    (saveEdits Lane.arabic
        (SaveResponse.success (some [⟨0, "bonjour"⟩]) (some "bonjour"))
        { samplePanel with editMode := some Lane.arabic }).frenchSegs = [⟨0, "bonjour"⟩] ∧
    (saveEdits Lane.arabic
        (SaveResponse.success (some [⟨0, "bonjour"⟩]) (some "bonjour"))
        { samplePanel with editMode := some Lane.arabic }).frenchText = "bonjour" := by
  have h := cascade_merge { samplePanel with editMode := some Lane.arabic }
    (some [⟨0, "bonjour"⟩]) (some "bonjour")
  exact ⟨h.1 _ rfl, h.2.2.1 _ rfl (by decide)⟩

/- ## Claims about the pipeline ledger -/

theorem statuses_reset : statusesOf resetSteps =
    ["pending", "pending", "pending", "pending"] := rfl

theorem statuses_extract_active : statusesOf (updExtractActive resetSteps) =
    ["active", "pending", "pending", "pending"] := rfl

theorem statuses_extract_done (d : ℚ) :
    statusesOf (updExtractDone d (updExtractActive resetSteps)) =
    ["done", "active", "pending", "pending"] := rfl

theorem statuses_whisper_done (d e : ℚ) (td : TranscribeData) :
    statusesOf (updWhisperDone e td (updExtractDone d (updExtractActive resetSteps))) =
    ["done", "done", "active", "pending"] := rfl

theorem statuses_translate_done (d e f : ℚ) (td : TranscribeData) :
    statusesOf (updTranslateDone f
      (updWhisperDone e td (updExtractDone d (updExtractActive resetSteps)))) =
    ["done", "done", "done", "active"] := rfl

theorem statuses_article_done (d e f g : ℚ) (td : TranscribeData) (tld : TranslateData) :
    statusesOf (updArticleDone g tld (updTranslateDone f
      (updWhisperDone e td (updExtractDone d (updExtractActive resetSteps))))) =
    ["done", "done", "done", "done"] := rfl

theorem ledger_checks_of_eq (sts l : List String) (h : sts = l)
    (h1 : atMostOneActive l = true) (h2 : noActiveAfterNonDone l = true) :
    atMostOneActive sts = true ∧ noActiveAfterNonDone sts = true := by
  rw [h]
  exact ⟨h1, h2⟩

/-- C6: at every point of any run, at most one ledger stage has the
status active, and an active stage is preceded only by done stages:
every status vector reachable during handleTranscribeAndTranslate,
for any call outcomes and timings, satisfies both checks. -/
theorem ledger_single_active (tr : StageCall TranscribeData) (tl : StageCall TranslateData)
    (d1 d2 d3 d4 : ℚ) (sts : List String)
    (h : sts ∈ (pipelineTrace tr tl d1 d2 d3 d4).map statusesOf) :
    atMostOneActive sts = true ∧ noActiveAfterNonDone sts = true := by
  cases tr with
  | fail dt =>
      simp only [pipelineTrace, List.map, List.mem_cons, List.not_mem_nil, or_false] at h
      rcases h with h | h
      · exact ledger_checks_of_eq _ _ (h.trans statuses_reset) (by decide) (by decide)
      · exact ledger_checks_of_eq _ _ (h.trans statuses_extract_active) (by decide) (by decide)
  | ok td =>
      cases tl with
      | fail dt =>
          simp only [pipelineTrace, List.map, List.mem_cons, List.not_mem_nil, or_false] at h
          rcases h with h | h | h | h
          · exact ledger_checks_of_eq _ _ (h.trans statuses_reset) (by decide) (by decide)
          · exact ledger_checks_of_eq _ _ (h.trans statuses_extract_active)
              (by decide) (by decide)
          · exact ledger_checks_of_eq _ _ (h.trans (statuses_extract_done d1))
              (by decide) (by decide)
          · exact ledger_checks_of_eq _ _ (h.trans (statuses_whisper_done d1 d2 td))
              (by decide) (by decide)
      | ok tld =>
          simp only [pipelineTrace, List.map, List.mem_cons, List.not_mem_nil, or_false] at h
          rcases h with h | h | h | h | h | h
          · exact ledger_checks_of_eq _ _ (h.trans statuses_reset) (by decide) (by decide)
          · exact ledger_checks_of_eq _ _ (h.trans statuses_extract_active)
              (by decide) (by decide)
          · exact ledger_checks_of_eq _ _ (h.trans (statuses_extract_done d1))
              (by decide) (by decide)
          · exact ledger_checks_of_eq _ _ (h.trans (statuses_whisper_done d1 d2 td))
              (by decide) (by decide)
          · exact ledger_checks_of_eq _ _ (h.trans (statuses_translate_done d1 d2 d3 td))
              (by decide) (by decide)
          · exact ledger_checks_of_eq _ _
              (h.trans (statuses_article_done d1 d2 d3 d4 td tld)) (by decide) (by decide)

/-- Witness for C6 at a concrete run that fails in the first stage. -/
theorem ledger_single_active_witness :
    atMostOneActive ["active", "pending", "pending", "pending"] = true ∧
    noActiveAfterNonDone ["active", "pending", "pending", "pending"] = true := by
  exact ledger_single_active (StageCall.fail none) (StageCall.fail none) 0 0 0 0
    ["active", "pending", "pending", "pending"]
    (by rw [show (pipelineTrace (StageCall.fail none) (StageCall.fail none) 0 0 0 0).map
          statusesOf =
        [["pending", "pending", "pending", "pending"],
         ["active", "pending", "pending", "pending"]] from rfl]
        exact List.mem_cons_of_mem _ (List.mem_cons_self _ _))

/-- C5 counterexample: the claim states that when the first stage
fails with detail quota exceeded the stage statuses end as failed,
pending, pending, pending. In the code the catch block only stores
the message; no stage status is ever set to failed, and the first
stage stays active. -/
theorem abort_statuses_counterexample :
    statusesOf (finalPipelineSteps (StageCall.fail (some "quota exceeded"))
        (StageCall.fail none) 0 0 0 0) =
      ["active", "pending", "pending", "pending"] ∧
    (["active", "pending", "pending", "pending"] : List String) ≠
      ["failed", "pending", "pending", "pending"] := by
  exact ⟨rfl, by decide⟩

/-- C5 amended: when the first stage fails with a non-empty
service-supplied detail, the run aborts: the translate call is never
attempted (only the transcribe endpoint is fetched), the displayed
message equals the detail string, every subsequent stage status stays
pending, and the failed stage keeps the status active (the code has
no failed status), yielding statuses active, pending, pending,
pending. -/
theorem abort_on_first_stage_failure (tl : StageCall TranslateData) (d1 d2 d3 d4 : ℚ)
    (detail : String) (h : detail ≠ "") :
    pipelineError (StageCall.fail (some detail)) tl = some detail ∧
    statusesOf (finalPipelineSteps (StageCall.fail (some detail)) tl d1 d2 d3 d4) =
      ["active", "pending", "pending", "pending"] ∧
    pipelineCalls (StageCall.fail (some detail)) = ["transcribe"] := by
  refine ⟨?_, rfl, rfl⟩
  simp [pipelineError, jsOrStr, h]

/-- Witness for C5 amended at the detail quota exceeded. -/
theorem abort_on_first_stage_failure_witness :
    pipelineError (StageCall.fail (some "quota exceeded")) (StageCall.fail none) =
      some "quota exceeded" ∧
    statusesOf (finalPipelineSteps (StageCall.fail (some "quota exceeded"))
        (StageCall.fail none) 0 0 0 0) =
      ["active", "pending", "pending", "pending"] := by
  have h := abort_on_first_stage_failure (StageCall.fail none) 0 0 0 0
    "quota exceeded" (by decide)
  exact ⟨h.1, h.2.1⟩

/-- C7 counterexample: the claim states that after a fully successful
automatic run the statuses are done, done, done, pending with the
fourth stage untriggered. In the code the fourth ledger entry, the
article stage, is marked active and then done by the automatic chain
itself while the translate response is parsed, so a successful run
ends with all four stages done. -/
theorem success_statuses_counterexample :
    statusesOf (finalPipelineSteps (StageCall.ok ⟨some (2 / 100)⟩)
        (StageCall.ok ⟨some ⟨some (1 / 100), none⟩⟩) 0 0 0 0) =
      ["done", "done", "done", "done"] ∧
    (["done", "done", "done", "done"] : List String) ≠
      ["done", "done", "done", "pending"] := by
  exact ⟨rfl, by decide⟩

/-- C7 amended: after a successful automatic run the four stage
statuses are done, done, done, done and no error is displayed: the
fourth ledger stage is part of the automatic chain (it is marked
active and then done while the translate response is parsed), not a
pending user-triggered stage. -/
theorem success_statuses_all_done (td : TranscribeData) (tld : TranslateData)
    (d1 d2 d3 d4 : ℚ) :
    statusesOf (finalPipelineSteps (StageCall.ok td) (StageCall.ok tld) d1 d2 d3 d4) =
      ["done", "done", "done", "done"] ∧
    pipelineError (StageCall.ok td) (StageCall.ok tld) = none := by
  exact ⟨rfl, rfl⟩

/- ## Claims about cost aggregation and formatting -/

theorem updateTotal_some (a : ℚ) (c : Option ℚ) :
    updateTotal (some a) c = a + jsOrZero c := by
  unfold updateTotal jsOrZero
  by_cases h : a = 0 <;> simp [h]

theorem accumulate_eq_sum (l : List (Option ℚ)) :
    accumulate l = (l.map jsOrZero).sum := by
  have aux : ∀ (l : List (Option ℚ)) (a : ℚ),
      l.foldl (fun acc c => updateTotal (some acc) c) a = a + (l.map jsOrZero).sum := by
    intro l
    induction l with
    | nil => intro a; simp
    | cons c rest ih =>
        intro a
        simp only [List.foldl_cons, List.map_cons, List.sum_cons]
        rw [ih, updateTotal_some]
        ring
  unfold accumulate
  rw [aux]
  ring

/-- C8: the incremental total update of handleGenerateArticle adds
the delta to the previous total, treating an absent delta and an
absent previous total as exactly zero, and folding per-stage costs
with it is order independent: permuted cost lists accumulate to the
same total. -/
theorem cost_accumulation (t : Option ℚ) (d : ℚ) (l1 l2 : List (Option ℚ))
    (hd : d ≠ 0) (hperm : l1.Perm l2) :
    updateTotal t (some d) = jsOrZero t + d ∧
    updateTotal t none = jsOrZero t ∧
    (∀ c : Option ℚ, updateTotal none c = jsOrZero c) ∧
    accumulate l1 = accumulate l2 := by
  refine ⟨?_, ?_, ?_, ?_⟩
  · unfold updateTotal jsOrZero
    simp [hd]
  · unfold updateTotal jsOrZero
    simp
  · intro c
    unfold updateTotal jsOrZero
    simp
  · rw [accumulate_eq_sum, accumulate_eq_sum]
    exact (hperm.map jsOrZero).sum_eq

/-- Witness for C8: the example cost set 2.00, absent, 0.0003
accumulated in two different orders gives the same total, and adding
a concrete delta to a concrete total adds exactly the delta. -/
theorem cost_accumulation_witness :
    updateTotal (some 2) (some (3 / 10000)) = jsOrZero (some 2) + 3 / 10000 ∧
    accumulate [none, some 2, some (3 / 10000)] =
      accumulate [some 2, none, some (3 / 10000)] := by
  have h := cost_accumulation (some 2) (3 / 10000)
    [none, some 2, some (3 / 10000)] [some 2, none, some (3 / 10000)]
    (by norm_num) (List.Perm.swap (some 2) none [some (3 / 10000)])
  exact ⟨h.1, h.2.2.2⟩

theorem fracDigitChars_length (n : ℕ) : ∀ m : ℕ, (fracDigitChars n m).length = n := by
  induction n with
  | zero => intro m; rfl
  | succ k ih =>
      intro m
      simp only [fracDigitChars, List.length_append, List.length_cons, List.length_nil, ih]

theorem digitChar_ne_dot : ∀ d : ℕ, d < 10 → Nat.digitChar d ≠ '.' := by decide

theorem dot_not_mem_fracDigitChars (n : ℕ) : ∀ m : ℕ, '.' ∉ fracDigitChars n m := by
  induction n with
  | zero => intro m; simp [fracDigitChars]
  | succ k ih =>
      intro m
      simp only [fracDigitChars, List.mem_append, List.mem_singleton]
      rintro (h | h)
      · exact ih _ h
      · exact digitChar_ne_dot (m % 10) (Nat.mod_lt _ (by norm_num)) h.symm

theorem dot_not_mem_natDigitChars (m : ℕ) : '.' ∉ natDigitChars m := by
  unfold natDigitChars
  by_cases h : m = 0
  · simp [h]
  · simp only [h, if_false, List.mem_map, List.mem_reverse]
    rintro ⟨d, hd, hchar⟩
    exact digitChar_ne_dot d (Nat.digits_lt_base (by norm_num) hd) hchar

theorem charsAfterDot_append_dot (r : List Char) :
    ∀ l : List Char, '.' ∉ l → charsAfterDot (l ++ '.' :: r) = r := by
  intro l
  induction l with
  | nil => intro _; simp [charsAfterDot]
  | cons c rest ih =>
      intro h
      have hc : c ≠ '.' := fun hc => h (hc ▸ List.mem_cons_self c rest)
      simp only [List.cons_append, charsAfterDot, if_neg hc]
      exact ih (fun hm => h (List.mem_cons_of_mem c hm))

theorem decimalsAfterDot_dollar_jsToFixed (n : ℕ) (q : ℚ) (hq : 0 < q) :
    decimalsAfterDot ("$" ++ jsToFixed n q) = n := by
  unfold jsToFixed
  rw [if_neg (by exact not_lt.mpr (le_of_lt hq))]
  unfold jsToFixedNonneg decimalsAfterDot
  rw [String.data_append]
  have hdollar : ("$" : String).data = ['$'] := rfl
  rw [hdollar]
  have hmk : (String.mk (natDigitChars
      ((⌊q * (10 : ℚ) ^ n + 1 / 2⌋).toNat / 10 ^ n) ++
      '.' :: fracDigitChars n ((⌊q * (10 : ℚ) ^ n + 1 / 2⌋).toNat % 10 ^ n))).data =
      natDigitChars ((⌊q * (10 : ℚ) ^ n + 1 / 2⌋).toNat / 10 ^ n) ++
      '.' :: fracDigitChars n ((⌊q * (10 : ℚ) ^ n + 1 / 2⌋).toNat % 10 ^ n) := rfl
  rw [hmk]
  have hne : ('$' : Char) ≠ '.' := by decide
  simp only [List.cons_append, charsAfterDot, if_neg hne]
  change (charsAfterDot (natDigitChars _ ++ '.' :: fracDigitChars _ _)).length = n
  rw [charsAfterDot_append_dot _ _ (dot_not_mem_natDigitChars _)]
  exact fracDigitChars_length n _

/-- C9 counterexample: the claim states that a null cost displays as
the two-decimal zero string in the cited code; the fmtCost of App.jsx
returns null for a null cost (the caller then renders no cost string
at all), not the zero string. -/
theorem fmtCostApp_null_counterexample :
    fmtCostApp none = none ∧ (none : Option String) ≠ some "$0.00" := by
  exact ⟨rfl, by simp⟩

/-- C9 amended: in the results panel fmtCost, null and zero display
as the two-decimal zero string; in the App fmtCost, zero displays as
the zero string but null yields null and no string is displayed; in
both, a positive value strictly below 0.0001 is rendered with
toFixed(6), showing six decimal places, and every value at least
0.0001 is rendered with toFixed(4), showing four decimal places. -/
theorem fmtCost_precision (v w : ℚ) (hv0 : 0 < v) (hv : v < 0.0001) (hw : 0.0001 ≤ w) :
    fmtCost none = "$0.00" ∧
    fmtCost (some 0) = "$0.00" ∧
    fmtCostApp none = none ∧
    fmtCostApp (some 0) = some "$0.00" ∧
    fmtCost (some v) = "$" ++ jsToFixed 6 v ∧
    fmtCostApp (some v) = some ("$" ++ jsToFixed 6 v) ∧
    decimalsAfterDot (fmtCost (some v)) = 6 ∧
    fmtCost (some w) = "$" ++ jsToFixed 4 w ∧
    fmtCostApp (some w) = some ("$" ++ jsToFixed 4 w) ∧
    decimalsAfterDot (fmtCost (some w)) = 4 := by
  have hvne : v ≠ 0 := ne_of_gt hv0
  have hw0 : (0 : ℚ) < w := lt_of_lt_of_le (by norm_num) hw
  have hwne : w ≠ 0 := ne_of_gt hw0
  have hwnotlt : ¬ w < 0.0001 := not_lt.mpr hw
  have hv6 : fmtCost (some v) = "$" ++ jsToFixed 6 v := by
    simp only [fmtCost]
    rw [if_neg hvne, if_pos hv]
  have hw4 : fmtCost (some w) = "$" ++ jsToFixed 4 w := by
    simp only [fmtCost]
    rw [if_neg hwne, if_neg hwnotlt]
  refine ⟨rfl, by norm_num [fmtCost], rfl, by norm_num [fmtCostApp], hv6, ?_, ?_, hw4, ?_, ?_⟩
  · simp only [fmtCostApp]
    rw [if_neg hvne, if_pos hv]
  · rw [hv6]
    exact decimalsAfterDot_dollar_jsToFixed 6 v hv0
  · simp only [fmtCostApp]
    rw [if_neg hwne, if_neg hwnotlt]
  · rw [hw4]
    exact decimalsAfterDot_dollar_jsToFixed 4 w hw0

/-- Witness for C9 amended at the concrete sub-cent value 0.00001 and
the ordinary value 0.02. -/
theorem fmtCost_precision_witness :
    decimalsAfterDot (fmtCost (some ((1 : ℚ) / 100000))) = 6 ∧
    decimalsAfterDot (fmtCost (some ((2 : ℚ) / 100))) = 4 := by
  have h := fmtCost_precision ((1 : ℚ) / 100000) ((2 : ℚ) / 100)
    (by norm_num) (by norm_num) (by norm_num)
  exact ⟨h.2.2.2.2.2.2.1, h.2.2.2.2.2.2.2.2.2⟩

end Khotba
